import Mathlib

/-!
Verification of the repository-summarization pipeline (ghsum).

The Python sources are shallowly embedded: text transformations from
`ghsum/core/summarizer.py`, `ghsum/summarizer.py`, `ghsum/cli/main.py` and
`ghsum/cli.py` are modelled as executable functions on `List Char` / `String`;
the HTTP-facing operations of `ghsum/core/github.py` and the Ollama backend of
`ghsum/summarizer.py` are modelled as functions over an explicit response value
(the result of the network call), with network failure as an `Except` error.

Python specifics kept by the embedding:
* `str.splitlines` is modelled for newline-separated text (the only separator
  appearing in the repository's data paths);
* `str.strip` / `str.split()` use the ASCII whitespace set;
* the regex substitutions of `_clean_markdown` / `_excerpt` are implemented
  with their exact scanning semantics (leftmost match, lazy/greedy quantifiers
  as in the source patterns, `.` not matching a newline unless `re.S` is set).
-/

namespace GhSum

/-- Backtick character (written via its code point). -/
def btick : Char := Char.ofNat 96

/-- Opening curly brace character. -/
def lbrace : Char := Char.ofNat 123

/-- Closing curly brace character. -/
def rbrace : Char := Char.ofNat 125

/-- Python whitespace for `str.strip()` / `str.split()` (ASCII set). -/
def pyIsSpace (c : Char) : Bool :=
  c = ' ' || c = '\t' || c = '\n' || c = '\r' || c = Char.ofNat 11 || c = Char.ofNat 12

/-- Python `str.splitlines()` (newline separator), accumulator form:
`cur` holds the reversed current line. A trailing newline does not produce a
trailing empty line. -/
def splitlinesAux : List Char → List Char → List (List Char)
  | cur, [] => if cur.isEmpty then [] else [cur.reverse]
  | cur, c :: rest =>
    if c = '\n' then cur.reverse :: splitlinesAux [] rest
    else splitlinesAux (c :: cur) rest

/-- Python `str.splitlines()` for newline-separated text. -/
def splitlines (s : List Char) : List (List Char) := splitlinesAux [] s

/-- Python `"\n".join(lines)`. -/
def joinNL : List (List Char) → List Char
  | [] => []
  | [l] => l
  | l :: rest => l ++ '\n' :: joinNL rest

/-- Python `" ".join(tokens)`. -/
def joinSp : List (List Char) → List Char
  | [] => []
  | [l] => l
  | l :: rest => l ++ ' ' :: joinSp rest

/-- Python `str.strip()` (left and right whitespace trim). -/
def pyStrip (s : List Char) : List Char :=
  ((s.reverse.dropWhile pyIsSpace).reverse).dropWhile pyIsSpace

/-- A line is blank when `ln.strip()` is falsy, i.e. all characters are
whitespace. -/
def isBlank (s : List Char) : Bool := s.all pyIsSpace

/-- Python `str.split()` (split on whitespace runs, no empty tokens),
accumulator form: `cur` holds the reversed current token. -/
def pySplitAux : List Char → List Char → List (List Char)
  | cur, [] => if cur.isEmpty then [] else [cur.reverse]
  | cur, c :: rest =>
    if pyIsSpace c then
      if cur.isEmpty then pySplitAux [] rest else cur.reverse :: pySplitAux [] rest
    else pySplitAux (c :: cur) rest

/-- Python `str.split()` with no arguments. -/
def pySplit (s : List Char) : List (List Char) := pySplitAux [] s

/-- Does `pat` occur as a prefix of `s`? -/
def startsWith : List Char → List Char → Bool
  | [], _ => true
  | _ :: _, [] => false
  | p :: ps, c :: cs => p = c && startsWith ps cs

/-- Remainder of `s` after the first (leftmost) occurrence of the nonempty
pattern `pat`; `none` when `pat` does not occur. -/
def dropAfter (pat : List Char) : List Char → Option (List Char)
  | [] => none
  | c :: rest =>
    if startsWith pat (c :: rest) then some (List.drop (pat.length - 1) rest)
    else dropAfter pat rest

/-- Substring containment, via `dropAfter`. -/
def containsSub (pat s : List Char) : Bool := (dropAfter pat s).isSome

/-- Result of Python `re.search(r"!\[.*\]\(.*\)", ln)` on a single newline-free
line: the line contains `![`, then later `](`, then later `)`.  Taking the
leftmost occurrence at each stage is complete because the existence of any
match is monotone in the remaining suffix. -/
def isBadgeLine (ln : List Char) : Bool :=
  match dropAfter ['!', '['] ln with
  | none => false
  | some r1 =>
    match dropAfter [']', '('] r1 with
    | none => false
    | some r2 => containsSub [')'] r2

/-- Result of `re.search(r"\[.*\]\(.*\)", ln)` on a newline-free line (the link
pattern without the leading bang): used to state that cleaned text still
carries unresolved markdown link syntax. -/
def linkNoise (ln : List Char) : Bool :=
  match dropAfter ['['] ln with
  | none => false
  | some r1 =>
    match dropAfter [']', '('] r1 with
    | none => false
    | some r2 => containsSub [')'] r2

theorem lengthDropWhileLe (p : Char → Bool) (l : List Char) :
    (l.dropWhile p).length ≤ l.length := by
  induction l with
  | nil => simp
  | cons c rest ih =>
    by_cases h : p c
    · simp [List.dropWhile, h]; omega
    · simp [List.dropWhile, h]

theorem lengthTakeDropWhile (p : Char → Bool) (l : List Char) :
    (l.takeWhile p).length + (l.dropWhile p).length = l.length := by
  conv_rhs => rw [← List.takeWhile_append_dropWhile (p := p) (l := l)]
  exact (List.length_append _ _).symm

theorem dropAfter_length_lt {pat s r : List Char} (h : dropAfter pat s = some r) :
    r.length < s.length := by
  induction s with
  | nil => simp [dropAfter] at h
  | cons c rest ih =>
    unfold dropAfter at h
    by_cases hs : startsWith pat (c :: rest) = true
    · simp [hs] at h
      subst h
      have := List.length_drop (pat.length - 1) rest
      simp [this]
      omega
    · simp [hs] at h
      exact Nat.lt_trans (ih h) (by simp)

/-- Scanner for the lazy `(.*?)\]\(` part of `re.sub(r"\[(.*?)\]\(.*?\)", ...)`:
starting just after a `[`, collect characters up to the first `](`; `.` does
not match a newline, so the scan fails at a newline or at the end of input.
Returns the collected label and the remainder after `](`. -/
def scanLinkLabel : List Char → Option (List Char × List Char)
  | [] => none
  | c :: rest =>
    if c = ']' ∧ rest.head? = some '(' then some ([], rest.tail)
    else if c = '\n' then none
    else
      match scanLinkLabel rest with
      | some (a, r) => some (c :: a, r)
      | none => none

/-- Scanner for the lazy `.*?\)` tail of the link pattern: skip to the first
`)`, failing at a newline or the end of input.  Returns the remainder after
the `)`. -/
def scanCloseParen : List Char → Option (List Char)
  | [] => none
  | c :: rest =>
    if c = ')' then some rest
    else if c = '\n' then none
    else scanCloseParen rest

theorem scanLinkLabel_length {s : List Char} {a r : List Char}
    (h : scanLinkLabel s = some (a, r)) : r.length < s.length := by
  induction s generalizing a with
  | nil => simp [scanLinkLabel] at h
  | cons c rest ih =>
    unfold scanLinkLabel at h
    by_cases h1 : c = ']' ∧ rest.head? = some '('
    · simp [h1] at h
      rcases rest with _ | ⟨c', rest'⟩
      · simp at h1
      · simp at h
        rw [← h.2]
        simp
        omega
    · by_cases h2 : c = '\n'
      · simp [h1, h2] at h
      · rcases hs : scanLinkLabel rest with _ | ⟨a', r'⟩
        · simp [h1, h2, hs] at h
        · simp [h1, h2, hs] at h
          have hr : r' = r := h.2
          subst hr
          exact Nat.lt_trans (ih hs) (by simp)

theorem scanCloseParen_length {s r : List Char} (h : scanCloseParen s = some r) :
    r.length < s.length := by
  induction s with
  | nil => simp [scanCloseParen] at h
  | cons c rest ih =>
    unfold scanCloseParen at h
    by_cases h1 : c = ')'
    · simp [h1] at h; simp [← h]
    · by_cases h2 : c = '\n'
      · subst h2; simp [h1] at h
      · simp [h1, h2] at h
        exact Nat.lt_trans (ih h) (by simp)

/-- Embedding of `re.sub(r"\[(.*?)\]\(.*?\)", r"\1", raw)`: scan left to right;
a match can only start at a `[`; the label runs to the first `](` (no newline
in between) and the url part to the first `)` (no newline); the whole match is
replaced by the label.  On a failed match the `[` is kept and scanning resumes
at the next character. -/
def linkSub : List Char → List Char
  | [] => []
  | c :: rest =>
    if c = '[' then
      match h1 : scanLinkLabel rest with
      | some (a, r1) =>
        match h2 : scanCloseParen r1 with
        | some r2 => a ++ linkSub r2
        | none => c :: linkSub rest
      | none => c :: linkSub rest
    else c :: linkSub rest
termination_by s => s.length
decreasing_by
  all_goals try simp
  have h3 := scanCloseParen_length h2
  have h4 := scanLinkLabel_length h1
  omega

/-- Embedding of `re.sub(r"`{3}.*?`{3}", "", raw, flags=re.S)` from
`_clean_markdown`: at a run of three backticks, the lazy dotall body extends
to the first following occurrence of three backticks and the whole span is
deleted; with no closing delimiter there is no match at this position and
scanning resumes one character later. -/
def fenceSub : List Char → List Char
  | [] => []
  | c :: rest =>
    if c = btick ∧ rest.take 2 = [btick, btick] then
      match h1 : dropAfter [btick, btick, btick] (rest.drop 2) with
      | some r => fenceSub r
      | none => c :: fenceSub rest
    else c :: fenceSub rest
termination_by s => s.length
decreasing_by
  all_goals try simp
  have h3 := dropAfter_length_lt h1
  rw [List.length_drop] at h3
  omega

/-- Embedding of `re.sub(r"`([^`]+)`", r"\1", raw)` from `_clean_markdown`:
at a backtick, a greedy nonempty run of non-backtick characters (newlines
included) followed by a closing backtick is replaced by the run itself. -/
def inlineCodeSub : List Char → List Char
  | [] => []
  | c :: rest =>
    if c = btick then
      if (rest.takeWhile (fun x => !(x = btick))).isEmpty then c :: inlineCodeSub rest
      else if (rest.dropWhile (fun x => !(x = btick))).isEmpty then c :: inlineCodeSub rest
      else
        rest.takeWhile (fun x => !(x = btick)) ++
          inlineCodeSub ((rest.dropWhile (fun x => !(x = btick))).tail)
    else c :: inlineCodeSub rest
termination_by s => s.length
decreasing_by
  all_goals try simp
  rename_i hne
  have hlen := lengthDropWhileLe (fun x => !(x = btick)) rest
  have hpos : 0 < (rest.dropWhile (fun x => !(x = btick))).length := by
    rcases hd : rest.dropWhile (fun x => !(x = btick)) with _ | ⟨y, ys⟩
    · rw [hd] at hne; simp at hne
    · simp [hd]
  simp [List.length_tail]
  omega

/-- Count of leading backticks. -/
def backtickRun : List Char → Nat
  | [] => 0
  | c :: rest => if c = btick then backtickRun rest + 1 else 0

/-- Scanner for the lazy no-dotall body of `re.sub(r"`{1,3}.*?`{1,3}", "", raw)`
from `_excerpt`: skip to the first backtick reachable without crossing a
newline, returning the suffix that starts at that backtick. -/
def scanTick : List Char → Option (List Char)
  | [] => none
  | c :: rest =>
    if c = btick then some (c :: rest)
    else if c = '\n' then none
    else scanTick rest

theorem scanTick_length {s r : List Char} (h : scanTick s = some r) :
    r.length ≤ s.length := by
  induction s with
  | nil => simp [scanTick] at h
  | cons c rest ih =>
    unfold scanTick at h
    by_cases h1 : c = btick
    · simp [h1] at h; simp [← h]
    · by_cases h2 : c = '\n'
      · subst h2; simp [h1] at h
      · simp [h1, h2] at h
        exact Nat.le_trans (ih h) (by simp)

theorem scanTick_run_pos {s r : List Char} (h : scanTick s = some r) :
    1 ≤ backtickRun r := by
  induction s with
  | nil => simp [scanTick] at h
  | cons c rest ih =>
    unfold scanTick at h
    by_cases h1 : c = btick
    · simp [h1] at h
      rw [← h]
      simp [backtickRun, h1]
    · by_cases h2 : c = '\n'
      · subst h2; simp [h1] at h
      · simp [h1, h2] at h
        exact ih h

/-- Embedding of `re.sub(r"`{1,3}.*?`{1,3}", "", raw)` from `_excerpt` (no
dotall flag).  Match resolution at a backtick with a leading run of `run`
backticks, following the engine's backtracking order:
* `run ≥ 4`: the greedy opening takes 3, the lazy body is empty and the greedy
  closing takes `min 3 (run - 3)` backticks;
* `run ≤ 3`: the opening takes the whole run; the body runs to the next
  backtick on the same line, where the greedy closing takes up to 3 backticks;
  if no backtick follows on the line, the opening backtracks to `run - 1`
  backticks and the closing takes the last backtick of the run (so a run of 2
  or 3 is deleted as a whole); a lone backtick with no partner on its line has
  no match at all. -/
def excerptCodeSub : List Char → List Char
  | [] => []
  | c :: rest =>
    if hc : c = btick then
      if 4 ≤ backtickRun (c :: rest) then
        excerptCodeSub (List.drop (3 + min 3 (backtickRun (c :: rest) - 3)) (c :: rest))
      else
        match h1 : scanTick (List.drop (backtickRun (c :: rest)) (c :: rest)) with
        | some tr => excerptCodeSub (List.drop (min 3 (backtickRun tr)) tr)
        | none =>
          if backtickRun (c :: rest) = 1 then c :: excerptCodeSub rest
          else excerptCodeSub (List.drop (backtickRun (c :: rest)) (c :: rest))
    else c :: excerptCodeSub rest
termination_by s => s.length
decreasing_by
  all_goals try simp
  all_goals try omega
  all_goals first
    | (have hrun : backtickRun (c :: rest) = backtickRun rest + 1 := (by simp [backtickRun, hc]); omega)
    | (have hrun : backtickRun (c :: rest) = backtickRun rest + 1 := (by simp [backtickRun, hc]); have h2 := scanTick_length h1; simp at h2; omega)

/-- Embedding of `re.sub(r"#+\s*", "", raw)` from `_excerpt` (no anchors): at
any `#`, the greedy run of hashes and the greedy run of following whitespace
(newlines included) are deleted. -/
def headingSubAnywhere : List Char → List Char
  | [] => []
  | c :: rest =>
    if c = '#' then
      headingSubAnywhere ((rest.dropWhile (fun x => x = '#')).dropWhile pyIsSpace)
    else c :: headingSubAnywhere rest
termination_by s => s.length
decreasing_by
  all_goals try simp
  have h3 := lengthDropWhileLe pyIsSpace (rest.dropWhile (fun x => x = '#'))
  have h4 := lengthDropWhileLe (fun x => decide (x = '#')) rest
  omega

/-- Match attempt for `re.sub(r"^\s*#+\s*", "", raw, flags=re.M)` at a line
start: greedy whitespace (which may span newlines), at least one `#`, then
greedy trailing whitespace.  Returns the remainder together with whether the
last consumed character was a newline (which makes the resume position a line
start again). -/
def trySpanHeading (s : List Char) : Option (List Char × Bool) :=
  if (s.dropWhile pyIsSpace).head? = some '#' then
    some ((((s.dropWhile pyIsSpace).tail.dropWhile (fun x => x = '#')).dropWhile pyIsSpace),
      decide ((((s.dropWhile pyIsSpace).tail.dropWhile (fun x => x = '#')).takeWhile
        pyIsSpace).getLast? = some '\n'))
  else none

theorem all_tail {P : Char → Bool} {l : List Char} (h : l.all P) : l.tail.all P := by
  cases l with
  | nil => simp
  | cons c rest =>
    rw [List.all_cons, Bool.and_eq_true] at h
    exact h.2

theorem trySpanHeading_length {s r : List Char} {b : Bool}
    (h : trySpanHeading s = some (r, b)) : r.length < s.length := by
  unfold trySpanHeading at h
  by_cases hd : (s.dropWhile pyIsSpace).head? = some '#'
  · rw [if_pos hd] at h
    simp only [Option.some.injEq, Prod.mk.injEq] at h
    rcases hsplit : s.dropWhile pyIsSpace with _ | ⟨c, rest⟩
    · rw [hsplit] at hd; simp at hd
    · have htail : (s.dropWhile pyIsSpace).tail = rest := by rw [hsplit]; rfl
      calc r.length ≤ rest.length := by
            rw [← h.1, htail]
            exact le_trans (lengthDropWhileLe _ _) (lengthDropWhileLe _ _)
        _ < (c :: rest).length := by simp
        _ ≤ s.length := by rw [← hsplit]; exact lengthDropWhileLe _ _
  · rw [if_neg hd] at h
    simp at h

/-- Embedding of `re.sub(r"^\s*#+\s*", "", raw, flags=re.M)` from
`_clean_markdown`: the Boolean flag records whether the current position is a
line start (string start or just after a newline); matches are attempted only
there. -/
def headingSubM : Bool → List Char → List Char
  | _, [] => []
  | lineStart, c :: rest =>
    if lineStart then
      match h1 : trySpanHeading (c :: rest) with
      | some (r, nl) => headingSubM nl r
      | none => c :: headingSubM (decide (c = '\n')) rest
    else c :: headingSubM (decide (c = '\n')) rest
termination_by _ s => s.length
decreasing_by
  · exact trySpanHeading_length h1
  · simp
  · simp

/-! ## Text normalizer: `_clean_markdown` and `_excerpt` -/

/-- Embedding of `_clean_markdown` (identical in `ghsum/core/summarizer.py` and
`ghsum/summarizer.py`): drop badge lines, rejoin with newlines, rewrite links,
delete fenced code blocks, unwrap inline code, strip heading markers at line
starts, and trim. -/
def cleanMarkdownL (text : List Char) : List Char :=
  let lines := (splitlines text).filter (fun ln => !(isBadgeLine ln))
  let raw := joinNL lines
  let raw := linkSub raw
  let raw := fenceSub raw
  let raw := inlineCodeSub raw
  let raw := headingSubM true raw
  pyStrip raw

/-- String-level `_clean_markdown`. -/
def clean_markdown (text : String) : String := String.mk (cleanMarkdownL text.data)

/-- First paragraph of `_excerpt`: skip leading blank lines, then take the
maximal run of non-blank lines (the lines themselves, unstripped, matching the
source's `para.append(ln)`). -/
def firstParaRaw (lines : List (List Char)) : List (List Char) :=
  (lines.dropWhile isBlank).takeWhile (fun l => !(isBlank l))

/-- Final processing stage of `_excerpt` applied to the chosen raw text: link
rewrite, backtick-span removal, heading-marker removal, then the word cap.
Matches the source's tail after `raw` is chosen. -/
def excerptTail (raw : List Char) (word_limit : Nat) : List Char :=
  pyStrip (joinSp (List.take word_limit (pySplit (headingSubAnywhere (excerptCodeSub (linkSub raw))))))

/-- Embedding of `_excerpt` (identical in `ghsum/cli/main.py` and
`ghsum/cli.py`): badge lines are dropped, the first non-blank paragraph is
joined with single spaces; when no paragraph exists the fallback is the whole
original `text` argument (the source's `raw = " ".join(para) if para else
text`). -/
def excerptL (text : List Char) (word_limit : Nat) : List Char :=
  let lines := (splitlines text).filter (fun ln => !(isBadgeLine ln))
  let para := firstParaRaw lines
  let raw := if para.isEmpty then text else joinSp para
  excerptTail raw word_limit

/-- String-level `_excerpt` with the source's default word limit. -/
def excerpt (text : String) (word_limit : Nat := 500) : String :=
  String.mk (excerptL text.data word_limit)

/-- Spec-side variant of `_excerpt`, modelled from the spec sentence
"if none exists, fall back to the entire remaining text": the fallback is the
badge-filtered remaining text instead of the original input.  Used only to
compare the claimed behavior against the code's. -/
def excerptSpecRemaining (text : String) (word_limit : Nat) : String :=
  String.mk
    (let lines := (splitlines text.data).filter (fun ln => !(isBadgeLine ln))
     let para := firstParaRaw lines
     let raw := if para.isEmpty then joinNL lines else joinSp para
     excerptTail raw word_limit)

/-- Number of whitespace-separated words of a string (`len(s.split())`). -/
def wordCount (s : String) : Nat := (pySplit s.data).length

/-! ## Summarization: `basic_summary` -/

/-- Input selection of `basic_summary`:
`text = base_text.strip() or description.strip() or repo_name` (Python `or`
keeps the first truthy value, so the stripped forms are what get selected). -/
def selectText (repo_name base_text description : List Char) : List Char :=
  if !(pyStrip base_text).isEmpty then pyStrip base_text
  else if !(pyStrip description).isEmpty then pyStrip description
  else repo_name

/-- First paragraph of `basic_summary`: like `_excerpt`'s but the collected
lines are stripped (`para.append(ln.strip())`). -/
def firstParaStripped (lines : List (List Char)) : List (List Char) :=
  ((lines.dropWhile isBlank).takeWhile (fun l => !(isBlank l))).map pyStrip

/-- Embedding of `basic_summary` (identical in `ghsum/core/summarizer.py` and
`ghsum/summarizer.py`): select the input text, clean it, take the first
non-empty paragraph (or the whole cleaned text when there is none), and join
the first 90 words. -/
def basicSummaryL (repo_name base_text description : List Char) : List Char :=
  let text := cleanMarkdownL (selectText repo_name base_text description)
  let para := firstParaStripped (splitlines text)
  let raw := if para.isEmpty then text else joinSp para
  pyStrip (joinSp (List.take 90 (pySplit raw)))

/-- String-level `basic_summary`. -/
def basic_summary (repo_name base_text description : String) : String :=
  String.mk (basicSummaryL repo_name.data base_text.data description.data)

/-! ## Remote repository client (`ghsum/core/github.py`) -/

/-- Repository metadata item as returned by one page of
`GET /users/.../repos` (the fields the pipeline reads). -/
structure Repo where
  name : String
  html_url : Option String
  description : Option String
  fork : Bool
  archived : Bool
deriving DecidableEq, Repr

/-- Error raised by `raise_for_status()` on a non-2xx response
(`httpx.HTTPStatusError`, the spec's `RemoteError`). -/
inductive RemoteError where
  | httpStatus (code : Nat)
deriving DecidableEq, Repr

/-- Embedding of the pagination loop of `list_user_repos`: `pages` is the
sequence of successful page responses (page 1, page 2, ...); the loop stops at
the first empty batch; each item is skipped when `not include_forks and
item.get("fork")` or `not include_archived and item.get("archived")`. -/
def list_user_repos (include_forks include_archived : Bool) :
    List (List Repo) → List Repo
  | [] => []
  | batch :: rest =>
    if batch.isEmpty then []
    else
      batch.filter
          (fun it => !(!include_forks && it.fork) && !(!include_archived && it.archived))
        ++ list_user_repos include_forks include_archived rest

/-- Spec-side filter, modelled from the claim's words: an item with
`fork = true` is excluded iff `includeForks = false`, and an item with
`archived = true` is excluded iff `includeArchived = false`, each filter
independent of the other flag. -/
def specKeep (include_forks include_archived : Bool) (it : Repo) : Bool :=
  (!it.fork || include_forks) && (!it.archived || include_archived)

/-- Body of the `GET /repos/.../readme` JSON payload: presence of the
`encoding` and `content` keys is modelled with `Option`. -/
structure ReadmeData where
  encoding : Option String
  content : Option String
deriving DecidableEq, Repr

/-- An HTTP response for `get_readme`: status code plus parsed JSON body. -/
structure ReadmeResponse where
  status : Nat
  data : ReadmeData
deriving DecidableEq, Repr

/-- Success range of `httpx` (`raise_for_status` raises outside 2xx). -/
def is2xx (n : Nat) : Bool := decide (200 ≤ n) && decide (n < 300)

/-- Embedding of `get_readme`: `decode` stands for
`base64.b64decode(...).decode("utf-8", errors="ignore")` (an external library
call).  A 404 yields `none`; any other non-2xx raises; on 2xx the content is
decoded only when the payload signals base64 encoding and carries a `content`
key, and otherwise the result is `none`. -/
def get_readme (decode : String → String) (resp : ReadmeResponse) :
    Except RemoteError (Option String) :=
  if resp.status = 404 then .ok none
  else if !is2xx resp.status then .error (.httpStatus resp.status)
  else
    match resp.data.encoding, resp.data.content with
    | some e, some c => if e = "base64" then .ok (some (decode c)) else .ok none
    | some _, none => .ok none
    | none, _ => .ok none

/-! ## Generative summarizer (`ghsum/summarizer.py`) -/

/-- Failure of the backend invocation inside `httpx.Client(...)`: timeout,
connection failure, a non-2xx answer (`raise_for_status`), or an unparsable
body (`r.json()`). -/
inductive BackendError where
  | timeout
  | connection
  | httpStatus (code : Nat)
  | badBody
deriving DecidableEq, Repr

/-- Python `str.lower()` (ASCII case mapping, the range exercised here). -/
def pyLower (s : String) : String := String.mk (s.data.map Char.toLower)

/-- Python `str.strip()` on `String`. -/
def pyStripS (s : String) : String := String.mk (pyStrip s.data)

/-- Validated structured record (`RepositorySummary`, pydantic model). -/
structure RepositorySummary where
  name : String
  description : String
  purpose : String
  technologies : List String
  complexity : String
  target_audience : String
deriving DecidableEq, Repr

/-- Raw JSON object handed to `RepositorySummary(**json_data)`: every field may
be absent. -/
structure RawSummary where
  name : Option String
  description : Option String
  purpose : Option String
  technologies : Option (List String)
  complexity : Option String
  target_audience : Option String
deriving DecidableEq, Repr

/-- Pydantic validation failure (`ValidationError`, a `ValueError`). -/
inductive ValidationError where
  | tooManyTechnologies
  | badComplexity
  | missingField
deriving DecidableEq, Repr

/-- Embedding of the `validate_technologies` validator: more than 5 entries is
an error; otherwise entries that are blank after stripping are dropped and the
rest are lower-cased and stripped. -/
def validate_technologies (v : List String) : Except ValidationError (List String) :=
  if 5 < v.length then .error .tooManyTechnologies
  else .ok ((v.filter (fun t => !(pyStripS t = ""))).map (fun t => pyStripS (pyLower t)))

/-- Embedding of the `validate_complexity` validator. -/
def validate_complexity (v : String) : Except ValidationError String :=
  if pyLower v = "simple" ∨ pyLower v = "medium" ∨ pyLower v = "complex" then .ok (pyLower v)
  else .error .badComplexity

/-- Embedding of `RepositorySummary(**json_data)`: the fields without pydantic
defaults (`name`, `description`, `purpose`, `technologies`) must be present;
`complexity` defaults to "medium" and `target_audience` to "developers"
(validators do not run on defaulted values). -/
def mkRepositorySummary (raw : RawSummary) : Except ValidationError RepositorySummary :=
  match raw.name, raw.description, raw.purpose, raw.technologies with
  | some n, some d, some p, some ts =>
    match validate_technologies ts with
    | .error e => .error e
    | .ok ts' =>
      match (match raw.complexity with
             | some c => validate_complexity c
             | none => .ok "medium") with
      | .error e => .error e
      | .ok cx =>
        .ok { name := n, description := d, purpose := p, technologies := ts',
              complexity := cx, target_audience := raw.target_audience.getD "developers" }
  | _, _, _, _ => .error .missingField

/-- Embedding of the brace-span extraction in `summarize_structured`:
`json_start = response_text.find(...)` on the opening brace,
`json_end = response_text.rfind(...) + 1` on the closing brace, and the slice
is taken when `json_start != -1 and json_end > json_start`.  Equivalent list
form: drop up to the first opening brace, then cut after the last closing
brace; the result is `none` exactly when no such span exists. -/
def extractBraceSpan (s : List Char) : Option (List Char) :=
  let t := s.dropWhile (fun c => !(c = lbrace))
  if t.isEmpty then none
  else
    let u := (t.reverse.dropWhile (fun c => !(c = rbrace))).reverse
    if u.isEmpty then none else some u

/-- Fixed safe-default record built by both `except` branches of
`summarize_structured` (`description or "Repository summary"`). -/
def fallbackSummary (repo_name description : String) : RepositorySummary :=
  { name := repo_name
    description := if description = "" then "Repository summary" else description
    purpose := "Software project"
    technologies := []
    complexity := "medium"
    target_audience := "developers" }

/-- Embedding of `OllamaSummarizer.summarize` (`ghsum/summarizer.py`): the
`backend` argument is the outcome of the POST to `/api/generate` —
`.ok v` carries the `response` field of the parsed JSON body (`data.get("response")`,
absent key modelled as `none`), `.error e` is a raised exception.  The method's
`except` block only records the failure in the trace and then re-raises, so an
error is propagated unchanged; on success the response text is stripped.
Prompt construction and tracing do not affect the returned value and carry no
state, so they are elided. -/
def summarize (repo_name base_text description langs : String)
    (backend : Except BackendError (Option String)) : Except BackendError String :=
  match backend with
  | .error e => .error e
  | .ok v => .ok (pyStripS (v.getD ""))

/-- Embedding of `OllamaSummarizer.summarize_structured` (`ghsum/summarizer.py`):
`jsonParse` stands for `json.loads` (an external library call), returning
`none` for a `json.JSONDecodeError` and otherwise the parsed object with its
optional fields.  Backend failure, a missing brace span, a JSON decode error
and a pydantic `ValidationError` (a `ValueError`) are all caught and replaced
by the fixed safe default. -/
def summarize_structured (jsonParse : String → Option RawSummary)
    (repo_name base_text description langs : String)
    (backend : Except BackendError (Option String)) : RepositorySummary :=
  match backend with
  | .error _ => fallbackSummary repo_name description
  | .ok v =>
    let response_text := pyStripS (v.getD "")
    match extractBraceSpan response_text.data with
    | none => fallbackSummary repo_name description
    | some json_text =>
      match jsonParse (String.mk json_text) with
      | none => fallbackSummary repo_name description
      | some raw =>
        match mkRepositorySummary raw with
        | .error _ => fallbackSummary repo_name description
        | .ok s => s

/-! ## Orchestrator (`summarize_repo`, basic-summarizer path) -/

/-- Python-level runtime error: `None.strip()` raises `AttributeError`. -/
inductive PyError where
  | attributeError
deriving DecidableEq, Repr

/-- One `RepositorySummaryItem` of the orchestrator's output (the dictionary
built by `summarize_repo`; a key that is never set is `none`). -/
structure Item where
  name : String
  url : Option String
  description : String
  languages : Option (List String)
  readme : Option String
  readme_excerpt : Option String
  summary : Option String
deriving DecidableEq, Repr

/-- README normalization shared by both `summarize_repo` implementations:
`r = get_readme(...)`; when `r` is truthy, it is cleaned according to
`readme_mode` and stored under the mode's key. -/
def readmeTextOf (readme_mode : String) (readme_fetch : Option String) : Option String :=
  if readme_mode = "none" then none
  else
    match readme_fetch with
    | none => none
    | some r =>
      if r = "" then none
      else some (if readme_mode = "full" then clean_markdown r else excerpt r 500)

/-- Embedding of `summarize_repo` from `ghsum/cli/main.py` (the module the
`ghsum.cli` package resolves to), restricted to the basic-summarizer path
(`summarizer_obj is None`) with `include_langs = False`.  On this path the
source calls `basic_summary(name, readme_text, description)` with
`readme_text` — which is `None` when no README was stored — and
`basic_summary` immediately calls `.strip()` on it, so the call raises
`AttributeError` whenever a summary is to be built without a README. -/
def summarize_repo_main (repo : Repo) (readme_mode : String)
    (readme_fetch : Option String) : Except PyError Item :=
  let name := repo.name
  let description := repo.description.getD ""
  let readme_text := readmeTextOf readme_mode readme_fetch
  let item : Item :=
    { name := name
      url := repo.html_url
      description := description
      languages := none
      readme := if readme_mode = "full" then readme_text else none
      readme_excerpt := if readme_mode = "full" then none else readme_text
      summary := none }
  let base_text := match readme_text with
    | some t => if t = "" then description else t
    | none => description
  if base_text = "" then .ok item
  else
    match readme_text with
    | none => .error .attributeError
    | some t => .ok { item with summary := some (basic_summary name t description) }

/-- Embedding of `summarize_repo` from `ghsum/cli.py` (the sibling module
shadowed by the `ghsum.cli` package), same restriction: this implementation
passes `base_text` to `basic_summary`, so the description fallback works. -/
def summarize_repo_cli (repo : Repo) (readme_mode : String)
    (readme_fetch : Option String) : Item :=
  let name := repo.name
  let description := repo.description.getD ""
  let readme_text := readmeTextOf readme_mode readme_fetch
  let item : Item :=
    { name := name
      url := repo.html_url
      description := description
      languages := none
      readme := if readme_mode = "full" then readme_text else none
      readme_excerpt := if readme_mode = "full" then none else readme_text
      summary := none }
  let base_text := match readme_text with
    | some t => if t = "" then description else t
    | none => description
  if base_text = "" then item
  else { item with summary := some (basic_summary name base_text description) }

/-! ## Helper lemmas about the text primitives -/

theorem dropWhile_head_false {p : Char → Bool} {l : List Char} {c : Char} {rest : List Char}
    (h : l.dropWhile p = c :: rest) : p c = false := by
  induction l with
  | nil => simp at h
  | cons x xs ih =>
    by_cases hx : p x
    · rw [List.dropWhile_cons_of_pos hx] at h
      exact ih h
    · rw [List.dropWhile_cons_of_neg hx] at h
      cases h
      simpa using hx

theorem mem_dropWhile_of_not {p : Char → Bool} {x : Char} {l : List Char}
    (hx : x ∈ l) (hpx : p x = false) : x ∈ l.dropWhile p := by
  induction l with
  | nil => simp at hx
  | cons c rest ih =>
    by_cases hc : p c
    · rw [List.dropWhile_cons_of_pos hc]
      rcases List.mem_cons.mp hx with h | h
      · subst h; rw [hpx] at hc; simp at hc
      · exact ih h
    · rwa [List.dropWhile_cons_of_neg hc]

theorem mem_pyStrip {x : Char} {l : List Char} (hx : x ∈ l)
    (hpx : pyIsSpace x = false) : x ∈ pyStrip l := by
  unfold pyStrip
  apply mem_dropWhile_of_not _ hpx
  rw [List.mem_reverse]
  apply mem_dropWhile_of_not _ hpx
  rwa [List.mem_reverse]

theorem pyStrip_ne_nil {x : Char} {l : List Char} (hx : x ∈ l)
    (hpx : pyIsSpace x = false) : pyStrip l ≠ [] :=
  List.ne_nil_of_mem (mem_pyStrip hx hpx)

theorem splitlinesAux_first (cur s : List Char) (h : ¬(cur = [] ∧ s = [])) :
    ∃ rest, splitlinesAux cur s =
      (cur.reverse ++ s.takeWhile (fun c => !(c = '
'))) :: rest := by
  induction s generalizing cur with
  | nil =>
    have hcur : ¬ cur = [] := fun hc => h ⟨hc, rfl⟩
    refine ⟨[], ?_⟩
    simp [splitlinesAux, hcur]
  | cons c s' ih =>
    by_cases hc : c = '
'
    · refine ⟨splitlinesAux [] s', ?_⟩
      simp [splitlinesAux, hc, List.takeWhile]
    · have := ih (c :: cur) (by simp)
      rcases this with ⟨rest, hrest⟩
      refine ⟨rest, ?_⟩
      simp only [splitlinesAux, if_neg hc]
      rw [hrest]
      simp [List.takeWhile, hc]

theorem pySplitAux_space_all {w : List Char} (hw : w.all pyIsSpace) (cur : List Char) :
    pySplitAux cur w = if cur.isEmpty then [] else [cur.reverse] := by
  induction w generalizing cur with
  | nil => simp [pySplitAux]
  | cons c w' ih =>
    rw [List.all_cons, Bool.and_eq_true] at hw
    by_cases hcur : cur.isEmpty
    · simp only [pySplitAux, hw.1, if_pos rfl, hcur, if_true]
      rw [ih hw.2 []]
      simp [hcur]
    · simp only [pySplitAux, hw.1, if_pos rfl, hcur, if_false]
      rw [ih hw.2 []]
      simp [hcur]

theorem pySplitAux_append_space {w : List Char} (hw : w.all pyIsSpace) :
    ∀ (l cur : List Char), pySplitAux cur (l ++ w) = pySplitAux cur l := by
  intro l
  induction l with
  | nil =>
    intro cur
    rw [List.nil_append, pySplitAux_space_all hw cur]
    simp [pySplitAux]
  | cons c l' ih =>
    intro cur
    by_cases hc : pyIsSpace c
    · by_cases hcur : cur.isEmpty
      · simp [pySplitAux, hc, hcur, ih]
      · simp [pySplitAux, hc, hcur, ih]
    · simp [pySplitAux, hc, ih]

theorem pySplit_lstrip (l : List Char) : pySplit (l.dropWhile pyIsSpace) = pySplit l := by
  induction l with
  | nil => simp
  | cons c l' ih =>
    by_cases hc : pyIsSpace c
    · rw [List.dropWhile_cons_of_pos hc, ih]
      simp [pySplit, pySplitAux, hc]
    · rw [List.dropWhile_cons_of_neg hc]

theorem pySplit_pyStrip (l : List Char) : pySplit (pyStrip l) = pySplit l := by
  unfold pyStrip
  rw [pySplit_lstrip]
  have hdecomp : l = (l.reverse.dropWhile pyIsSpace).reverse ++ (l.reverse.takeWhile pyIsSpace).reverse := by
    conv_lhs => rw [← List.reverse_reverse l]
    rw [← List.reverse_append, List.takeWhile_append_dropWhile]
  have hw : ((l.reverse.takeWhile pyIsSpace).reverse).all pyIsSpace := by
    rw [List.all_reverse]
    exact List.all_eq_true.mpr fun x hx => List.mem_takeWhile_imp hx
  conv_rhs => rw [hdecomp]
  rw [pySplit, pySplit, pySplitAux_append_space hw]

theorem pySplitAux_tokens {s cur : List Char} (hcur : cur.all (fun c => !pyIsSpace c))
    {t : List Char} (ht : t ∈ pySplitAux cur s) :
    t ≠ [] ∧ t.all (fun c => !pyIsSpace c) := by
  induction s generalizing cur with
  | nil =>
    by_cases hc : cur.isEmpty
    · simp [pySplitAux, hc] at ht
    · simp [pySplitAux, hc] at ht
      subst ht
      constructor
      · simp
        intro h
        rw [h] at hc
        simp at hc
      · simpa using hcur
  | cons c s' ih =>
    by_cases hc : pyIsSpace c
    · by_cases hcur2 : cur.isEmpty
      · simp only [pySplitAux, hc, if_pos rfl, hcur2, if_true] at ht
        exact ih (by simp) ht
      · simp only [pySplitAux, hc, if_pos rfl, hcur2, if_false] at ht
        rcases List.mem_cons.mp ht with h | h
        · subst h
          constructor
          · simp
            intro h
            rw [h] at hcur2
            simp at hcur2
          · simpa using hcur
        · exact ih (by simp) h
    · simp only [pySplitAux, if_neg hc] at ht
      refine ih ?_ ht
      rw [List.all_cons, Bool.and_eq_true]
      exact ⟨by simpa using hc, hcur⟩

theorem pySplit_tokens {s t : List Char} (ht : t ∈ pySplit s) :
    t ≠ [] ∧ t.all (fun c => !pyIsSpace c) :=
  pySplitAux_tokens (by simp) ht

theorem pySplitAux_token_prefix {t : List Char} (h : t.all (fun c => !pyIsSpace c)) :
    ∀ (s cur : List Char), pySplitAux cur (t ++ s) = pySplitAux (t.reverse ++ cur) s := by
  induction t with
  | nil => intro s cur; simp
  | cons c t' ih =>
    intro s cur
    rw [List.all_cons, Bool.and_eq_true] at h
    have hc : ¬ pyIsSpace c = true := by simp at h; simpa using h.1
    show pySplitAux cur (c :: (t' ++ s)) = _
    simp only [pySplitAux, if_neg hc]
    rw [ih h.2 s (c :: cur)]
    rw [List.reverse_cons, List.append_assoc]
    rfl

theorem pySplit_joinSp {ts : List (List Char)}
    (h : ∀ t ∈ ts, t ≠ [] ∧ t.all (fun c => !pyIsSpace c)) :
    pySplit (joinSp ts) = ts := by
  induction ts with
  | nil => simp [joinSp, pySplit, pySplitAux]
  | cons t rest ih =>
    have ht := h t (by simp)
    cases rest with
    | nil =>
      show pySplit (joinSp [t]) = [t]
      have : joinSp [t] = t ++ [] := by simp [joinSp]
      rw [pySplit, this, pySplitAux_token_prefix ht.2]
      simp [pySplitAux, ht.1]
    | cons t2 rest2 =>
      have hjoin : joinSp (t :: t2 :: rest2) = t ++ ' ' :: joinSp (t2 :: rest2) := by
        simp [joinSp]
      rw [pySplit, hjoin, pySplitAux_token_prefix ht.2]
      have hrec : pySplit (joinSp (t2 :: rest2)) = t2 :: rest2 :=
        ih (fun x hx => h x (by simp [hx]))
      rw [pySplit] at hrec
      simp only [pySplitAux, List.append_nil]
      rw [if_pos (by decide), if_neg (by simp [ht.1]), hrec, List.reverse_reverse]

theorem pySplitAux_ne_nil {cur : List Char} (h : ¬ cur = []) (s : List Char) :
    pySplitAux cur s ≠ [] := by
  induction s generalizing cur with
  | nil => simp [pySplitAux, h]
  | cons c s' ih =>
    by_cases hc : pyIsSpace c
    · have hcur : ¬ cur.isEmpty = true := by simpa using h
      simp [pySplitAux, hc, hcur]
    · simp [pySplitAux, hc]
      exact ih (by simp)

theorem pyStrip_head_not_space (u : List Char) (h : ¬ pyStrip u = []) :
    ∃ c rest, pyStrip u = c :: rest ∧ pyIsSpace c = false := by
  rcases hs : pyStrip u with _ | ⟨c, rest⟩
  · exact absurd hs h
  · exact ⟨c, rest, rfl,
      dropWhile_head_false (show ((u.reverse.dropWhile pyIsSpace).reverse).dropWhile pyIsSpace = c :: rest from hs)⟩

theorem cleanMarkdownL_head (x : List Char) (h : ¬ cleanMarkdownL x = []) :
    ∃ c rest, cleanMarkdownL x = c :: rest ∧ pyIsSpace c = false :=
  pyStrip_head_not_space _ h

theorem joinSp_cons (a : List Char) (rest : List (List Char)) :
    ∃ z, joinSp (a :: rest) = a ++ z := by
  cases rest with
  | nil => exact ⟨[], by simp [joinSp]⟩
  | cons b r => exact ⟨' ' :: joinSp (b :: r), by simp [joinSp]⟩

theorem excerptTail_word_cap (raw : List Char) (limit : Nat) :
    (pySplit (excerptTail raw limit)).length ≤ limit := by
  unfold excerptTail
  rw [pySplit_pyStrip,
    pySplit_joinSp (fun t ht => pySplit_tokens (List.take_subset _ _ ht)),
    List.length_take]
  exact Nat.min_le_left _ _

theorem basicSummaryL_ne_nil {n b d : List Char}
    (h : ¬ cleanMarkdownL (selectText n b d) = []) : ¬ basicSummaryL n b d = [] := by
  obtain ⟨c, t, htext, hc⟩ := cleanMarkdownL_head (selectText n b d) h
  have hcnl : ¬ (c = '\n') := by
    intro hh
    rw [hh] at hc
    simp [pyIsSpace] at hc
  obtain ⟨ls, hsplit⟩ := splitlinesAux_first [] (c :: t) (by simp)
  have hline : splitlines (c :: t) = (c :: t.takeWhile (fun x => !(x = '\n'))) :: ls := by
    rw [show splitlines (c :: t) = splitlinesAux [] (c :: t) from rfl, hsplit]
    simp [List.takeWhile_cons, hcnl]
  have hblank : isBlank (c :: t.takeWhile (fun x => !(x = '\n'))) = false := by
    simp [isBlank, hc]
  have hpara : firstParaStripped (splitlines (c :: t)) =
      pyStrip (c :: t.takeWhile (fun x => !(x = '\n'))) ::
        ((ls.takeWhile (fun l => !(isBlank l))).map pyStrip) := by
    rw [hline]
    unfold firstParaStripped
    rw [List.dropWhile_cons_of_neg (by simp [hblank]),
      List.takeWhile_cons_of_pos (by simp [hblank])]
    simp
  have hstrip_ne : ¬ pyStrip (c :: t.takeWhile (fun x => !(x = '\n'))) = [] :=
    pyStrip_ne_nil (by simp) hc
  obtain ⟨c0, t0, hps, hc0⟩ := pyStrip_head_not_space _ hstrip_ne
  obtain ⟨z, hjs⟩ := joinSp_cons (pyStrip (c :: t.takeWhile (fun x => !(x = '\n'))))
    ((ls.takeWhile (fun l => !(isBlank l))).map pyStrip)
  have hraw : joinSp (firstParaStripped (splitlines (c :: t))) = c0 :: (t0 ++ z) := by
    rw [hpara, hjs, hps]
    rfl
  have hsplit_ne : ¬ pySplit (joinSp (firstParaStripped (splitlines (c :: t)))) = [] := by
    rw [hraw]
    show ¬ pySplitAux [] (c0 :: (t0 ++ z)) = []
    have hstep : pySplitAux [] (c0 :: (t0 ++ z)) = pySplitAux [c0] (t0 ++ z) := by
      simp [pySplitAux, hc0]
    rw [hstep]
    exact pySplitAux_ne_nil (by simp) _
  show ¬ pyStrip (joinSp (List.take 90 (pySplit
    (if (firstParaStripped (splitlines (cleanMarkdownL (selectText n b d)))).isEmpty
     then cleanMarkdownL (selectText n b d)
     else joinSp (firstParaStripped (splitlines (cleanMarkdownL (selectText n b d)))))))) = []
  rw [htext]
  have hempty : (firstParaStripped (splitlines (c :: t))).isEmpty = false := by
    rw [hpara]; rfl
  rw [if_neg (by simp [hempty])]
  intro hres
  have htake : ∀ x ∈ List.take 90 (pySplit (joinSp (firstParaStripped (splitlines (c :: t))))),
      x ≠ [] ∧ x.all (fun ch => !pyIsSpace ch) :=
    fun x hx => pySplit_tokens (List.take_subset _ _ hx)
  have hcontr : ([] : List (List Char)) =
      List.take 90 (pySplit (joinSp (firstParaStripped (splitlines (c :: t))))) := by
    rw [← pySplit_joinSp htake, ← pySplit_pyStrip, hres]
    rfl
  rcases hp : pySplit (joinSp (firstParaStripped (splitlines (c :: t)))) with _ | ⟨w, ws⟩
  · exact hsplit_ne hp
  · rw [hp] at hcontr
    rw [show (90 : Nat) = 89 + 1 from rfl, List.take_succ_cons] at hcontr
    exact List.cons_ne_nil _ _ hcontr.symm

theorem all_dropWhile {P q : Char → Bool} {l : List Char} (h : l.all P) :
    (l.dropWhile q).all P := by
  induction l with
  | nil => simp
  | cons c rest ih =>
    rw [List.all_cons, Bool.and_eq_true] at h
    by_cases hq : q c
    · rw [List.dropWhile_cons_of_pos hq]
      exact ih h.2
    · rw [List.dropWhile_cons_of_neg hq, List.all_cons, Bool.and_eq_true]
      exact ⟨h.1, h.2⟩

theorem splitlinesAux_all {P : Char → Bool} :
    ∀ (s cur : List Char), cur.all P → s.all P → ∀ ln ∈ splitlinesAux cur s, ln.all P := by
  intro s
  induction s with
  | nil =>
    intro cur hcur _ ln hln
    by_cases hc : cur.isEmpty
    · simp [splitlinesAux, hc] at hln
    · simp [splitlinesAux, hc] at hln
      subst hln
      simpa using hcur
  | cons c s' ih =>
    intro cur hcur hs ln hln
    rw [List.all_cons, Bool.and_eq_true] at hs
    by_cases hc : c = '\n'
    · simp only [splitlinesAux, if_pos hc] at hln
      rcases List.mem_cons.mp hln with h | h
      · subst h; simpa using hcur
      · exact ih [] (by simp) hs.2 ln h
    · simp only [splitlinesAux, if_neg hc] at hln
      refine ih (c :: cur) ?_ hs.2 ln hln
      rw [List.all_cons, Bool.and_eq_true]
      exact ⟨hs.1, hcur⟩

theorem joinNL_all {P : Char → Bool} (hnl : P '\n' = true) :
    ∀ (L : List (List Char)), (∀ ln ∈ L, ln.all P) → (joinNL L).all P := by
  intro L
  induction L with
  | nil => intro _; simp [joinNL]
  | cons l rest ih =>
    intro h
    cases rest with
    | nil => simpa [joinNL] using h l (by simp)
    | cons l2 r2 =>
      have hstep : joinNL (l :: l2 :: r2) = l ++ '\n' :: joinNL (l2 :: r2) := by
        simp [joinNL]
      rw [hstep, List.all_append, Bool.and_eq_true]
      refine ⟨by simpa using h l (by simp), ?_⟩
      rw [List.all_cons, Bool.and_eq_true]
      exact ⟨hnl, ih (fun x hx => h x (by simp [hx]))⟩

theorem pyStrip_all {P : Char → Bool} {l : List Char} (h : l.all P) : (pyStrip l).all P := by
  unfold pyStrip
  apply all_dropWhile
  rw [List.all_reverse]
  apply all_dropWhile
  rwa [List.all_reverse]

theorem linkSub_id {l : List Char} (h : l.all (fun c => !(c = '['))) : linkSub l = l := by
  induction l with
  | nil => simp [linkSub]
  | cons c rest ih =>
    rw [List.all_cons, Bool.and_eq_true] at h
    have hc : ¬ (c = '[') := by simpa using h.1
    rw [linkSub, if_neg hc, ih h.2]

theorem fenceSub_id {l : List Char} (h : l.all (fun c => !(c = btick))) : fenceSub l = l := by
  induction l with
  | nil => simp [fenceSub]
  | cons c rest ih =>
    rw [List.all_cons, Bool.and_eq_true] at h
    have hc : ¬ (c = btick) := by simpa using h.1
    rw [fenceSub, if_neg (fun hand => hc hand.1), ih h.2]

theorem inlineCodeSub_id {l : List Char} (h : l.all (fun c => !(c = btick))) :
    inlineCodeSub l = l := by
  induction l with
  | nil => simp [inlineCodeSub]
  | cons c rest ih =>
    rw [List.all_cons, Bool.and_eq_true] at h
    have hc : ¬ (c = btick) := by simpa using h.1
    rw [inlineCodeSub, if_neg hc, ih h.2]

theorem trySpanHeading_all {P : Char → Bool} {s r : List Char} {bl : Bool}
    (hs : s.all P) (h : trySpanHeading s = some (r, bl)) : r.all P := by
  unfold trySpanHeading at h
  by_cases hd : (s.dropWhile pyIsSpace).head? = some '#'
  · rw [if_pos hd] at h
    simp only [Option.some.injEq, Prod.mk.injEq] at h
    rw [← h.1]
    exact all_dropWhile (all_dropWhile (all_tail (all_dropWhile hs)))
  · rw [if_neg hd] at h
    simp at h

theorem headingSubM_all_fuel {P : Char → Bool} :
    ∀ (n : Nat) (l : List Char), l.length ≤ n → ∀ (bl : Bool), l.all P →
      (headingSubM bl l).all P := by
  intro n
  induction n with
  | zero =>
    intro l hl bl h
    rcases l with _ | ⟨c, rest⟩
    · simp [headingSubM]
    · simp at hl
  | succ n ih =>
    intro l hl bl h
    rcases l with _ | ⟨c, rest⟩
    · simp [headingSubM]
    · rw [List.all_cons, Bool.and_eq_true] at h
      rw [headingSubM]
      by_cases hb : bl
      · rw [if_pos hb]
        rcases hts : trySpanHeading (c :: rest) with _ | ⟨r, nl⟩
        · rw [List.all_cons, Bool.and_eq_true]
          refine ⟨h.1, ih rest (by simpa using hl) _ h.2⟩
        · have hlen := trySpanHeading_length hts
          have hall : (c :: rest).all P := by
            rw [List.all_cons, Bool.and_eq_true]; exact ⟨h.1, h.2⟩
          refine ih r ?_ nl (trySpanHeading_all hall hts)
          simp at hlen hl
          omega
      · rw [if_neg hb, List.all_cons, Bool.and_eq_true]
        exact ⟨h.1, ih rest (by simpa using hl) _ h.2⟩

theorem headingSubM_all {P : Char → Bool} {l : List Char} (bl : Bool) (h : l.all P) :
    (headingSubM bl l).all P :=
  headingSubM_all_fuel l.length l (Nat.le_refl _) bl h

theorem dropAfter_bracket_none {l : List Char} (h : l.all (fun c => !(c = '['))) :
    dropAfter ['['] l = none := by
  induction l with
  | nil => rfl
  | cons c rest ih =>
    rw [List.all_cons, Bool.and_eq_true] at h
    have hc : ¬ (c = '[') := by simpa using h.1
    have hsw : startsWith ['['] (c :: rest) = false := by
      simp [startsWith]
      intro hcb
      exact absurd hcb.symm hc
    rw [dropAfter, if_neg (by simp [hsw])]
    exact ih h.2

theorem dropAfter_bang_bracket_none {l : List Char} (h : l.all (fun c => !(c = '['))) :
    dropAfter ['!', '['] l = none := by
  induction l with
  | nil => rfl
  | cons c rest ih =>
    rw [List.all_cons, Bool.and_eq_true] at h
    have hsw : startsWith ['!', '['] (c :: rest) = false := by
      cases rest with
      | nil => simp [startsWith]
      | cons c2 r2 =>
        have hrest := h.2
        rw [List.all_cons, Bool.and_eq_true] at hrest
        have hc2 : ¬ (c2 = '[') := by simpa using hrest.1
        simp [startsWith]
        intro _ hcb
        exact absurd hcb.symm hc2
    rw [dropAfter, if_neg (by simp [hsw])]
    exact ih h.2

theorem dropAfter_fence_none {l : List Char} (h : l.all (fun c => !(c = btick))) :
    dropAfter [btick, btick, btick] l = none := by
  induction l with
  | nil => rfl
  | cons c rest ih =>
    rw [List.all_cons, Bool.and_eq_true] at h
    have hc : ¬ (c = btick) := by simpa using h.1
    have hsw : startsWith [btick, btick, btick] (c :: rest) = false := by
      simp [startsWith]
      intro hcb
      exact absurd hcb.symm hc
    rw [dropAfter, if_neg (by simp [hsw])]
    exact ih h.2

theorem linkNoise_false {ln : List Char} (h : ln.all (fun c => !(c = '['))) :
    linkNoise ln = false := by
  unfold linkNoise
  rw [dropAfter_bracket_none h]

theorem isBadgeLine_false {ln : List Char} (h : ln.all (fun c => !(c = '['))) :
    isBadgeLine ln = false := by
  unfold isBadgeLine
  rw [dropAfter_bang_bracket_none h]

theorem cleanMarkdownL_all_pair {l : List Char}
    (h1 : l.all (fun c => !(c = '[')))
    (h2 : l.all (fun c => !(c = btick))) :
    (cleanMarkdownL l).all (fun c => !(c = '[')) ∧
      (cleanMarkdownL l).all (fun c => !(c = btick)) := by
  have hlines1 : ∀ ln ∈ (splitlines l).filter (fun ln => !(isBadgeLine ln)),
      ln.all (fun c => !(c = '[')) :=
    fun ln hln => splitlinesAux_all l [] (by simp) h1 ln (List.mem_of_mem_filter hln)
  have hlines2 : ∀ ln ∈ (splitlines l).filter (fun ln => !(isBadgeLine ln)),
      ln.all (fun c => !(c = btick)) :=
    fun ln hln => splitlinesAux_all l [] (by simp) h2 ln (List.mem_of_mem_filter hln)
  have hjoin1 := joinNL_all (by decide) _ hlines1
  have hjoin2 := joinNL_all (by decide) _ hlines2
  have hid1 := linkSub_id hjoin1
  show (pyStrip (headingSubM true (inlineCodeSub (fenceSub (linkSub
      (joinNL ((splitlines l).filter (fun ln => !(isBadgeLine ln))))))))).all _ ∧
    (pyStrip (headingSubM true (inlineCodeSub (fenceSub (linkSub
      (joinNL ((splitlines l).filter (fun ln => !(isBadgeLine ln))))))))).all _
  rw [hid1, fenceSub_id hjoin2, inlineCodeSub_id hjoin2]
  exact ⟨pyStrip_all (headingSubM_all true hjoin1),
    pyStrip_all (headingSubM_all true hjoin2)⟩

set_option maxRecDepth 100000

/-- Parsed JSON record with six technology entries, used to exercise the
validation-rejection path. -/
def rawSix : RawSummary :=
  ⟨some "r", some "d", some "p", some ["a", "b", "c", "d", "e", "f"],
   some "medium", some "developers"⟩

/-! ## Claims -/

/-- C1 (counterexample): the plain `OllamaSummarizer.summarize` does NOT
absorb a backend failure: its `except` block re-raises after recording the
failure in the trace, so a timeout reaches the caller as an error instead of
any safe-default value. -/
theorem plain_summarize_propagates_backend_error :
    summarize "repo" "base" "desc" "langs" (Except.error BackendError.timeout) =
      Except.error BackendError.timeout := rfl

/-- C1 (amended): on any backend invocation failure the structured summarize
operation returns the fixed safe-default record and never propagates the
error, while the plain summarize operation re-raises the backend error to its
caller. -/
theorem backend_failure_handling_amended (jsonParse : String → Option RawSummary)
    (repo_name base_text description langs : String) (e : BackendError) :
    summarize repo_name base_text description langs (.error e) = .error e ∧
    summarize_structured jsonParse repo_name base_text description langs (.error e) =
      fallbackSummary repo_name description :=
  ⟨rfl, rfl⟩

/-- C2 (counterexample): the repository name "#" is a non-empty string, yet
`basic_summary "#" "" ""` returns the empty string — the heading-marker pass
of `_clean_markdown` deletes the whole selected text. -/
theorem basic_summary_nonempty_counterexample :
    ("#" : String) ≠ "" ∧ basic_summary "#" "" "" = "" := by
  refine ⟨by decide, ?_⟩
  simp [basic_summary, basicSummaryL, selectText, firstParaStripped, clean_markdown,
    cleanMarkdownL, splitlines, splitlinesAux, isBadgeLine, linkNoise, dropAfter, startsWith,
    containsSub, joinSp, joinNL, linkSub, scanLinkLabel, scanCloseParen, fenceSub,
    inlineCodeSub, headingSubM, trySpanHeading, pySplit, pySplitAux, pyStrip, pyIsSpace,
    isBlank, btick]

/-- C2 (amended): `basic_summary` returns a non-empty string whenever the
selected input (stripped base text if non-blank, else stripped description if
non-blank, else the raw repository name) is still non-empty after the
full markdown cleaning.  Whitespace-only inputs, or inputs consisting only of
markdown noise, can produce an empty summary. -/
theorem basic_summary_nonempty_amended (n b d : String)
    (h : ¬ clean_markdown (String.mk (selectText n.data b.data d.data)) = "") :
    ¬ basic_summary n b d = "" := by
  have h1 : ¬ cleanMarkdownL (selectText n.data b.data d.data) = [] := by
    intro hnil
    apply h
    show String.mk (cleanMarkdownL (selectText n.data b.data d.data)) = ""
    rw [hnil]
  intro hres
  exact basicSummaryL_ne_nil h1 (congrArg String.data hres)

/-- C2 (witness): a concrete instance of the amended claim, at repository
name "x" with empty base text and description. -/
theorem basic_summary_nonempty_witness :
    (¬ clean_markdown (String.mk (selectText "x".data "".data "".data)) = "") ∧
    ¬ basic_summary "x" "" "" = "" := by
  have hhyp : ¬ clean_markdown (String.mk (selectText "x".data "".data "".data)) = "" := by
    simp [clean_markdown, cleanMarkdownL, selectText, splitlines, splitlinesAux, isBadgeLine,
      dropAfter, startsWith, containsSub, joinNL, linkSub, scanLinkLabel, scanCloseParen,
      fenceSub, inlineCodeSub, headingSubM, trySpanHeading, pyStrip, pyIsSpace, btick]
  exact ⟨hhyp, basic_summary_nonempty_amended "x" "" "" hhyp⟩

/-- C3: `get_readme` returns `none` (no README, not an exception) on a 404;
on a 2xx response it returns the decoded content exactly when the payload
signals base64 encoding and carries a content key, and `none` for any other
encoding value or payload shape; any other non-2xx status fails with
`RemoteError`. -/
theorem get_readme_behavior (decode : String → String) (resp : ReadmeResponse) :
    (resp.status = 404 → get_readme decode resp = .ok none) ∧
    (is2xx resp.status = true → resp.data.encoding = some "base64" →
      ∀ c, resp.data.content = some c → get_readme decode resp = .ok (some (decode c))) ∧
    (is2xx resp.status = true →
      (resp.data.encoding ≠ some "base64" ∨ resp.data.content = none) →
      get_readme decode resp = .ok none) ∧
    (¬ resp.status = 404 → is2xx resp.status = false →
      get_readme decode resp = .error (RemoteError.httpStatus resp.status)) := by
  refine ⟨?_, ?_, ?_, ?_⟩
  · intro h404
    unfold get_readme
    rw [if_pos h404]
  · intro h2 henc c hcont
    have h404 : ¬ resp.status = 404 := by
      intro hh
      rw [hh] at h2
      exact absurd h2 (by decide)
    unfold get_readme
    rw [if_neg h404, if_neg (by simp [h2]), henc, hcont]
    simp
  · intro h2 hother
    have h404 : ¬ resp.status = 404 := by
      intro hh
      rw [hh] at h2
      exact absurd h2 (by decide)
    unfold get_readme
    rw [if_neg h404, if_neg (by simp [h2])]
    rcases henc : resp.data.encoding with _ | e
    · rfl
    · rcases hcont : resp.data.content with _ | cc
      · rfl
      · rcases hother with hne | hnone
        · have hne2 : ¬ (e = "base64") := by
            rw [henc] at hne
            intro hh
            exact hne (by rw [hh])
          simp [hne2]
        · rw [hcont] at hnone
          exact absurd hnone (by simp)
  · intro h404 h2
    unfold get_readme
    rw [if_neg h404, if_pos (by simp [h2])]

/-- C3 (witness): the four branches of `get_readme` exercised at concrete
responses. -/
theorem get_readme_behavior_witness :
    get_readme id ⟨404, ⟨none, none⟩⟩ = .ok none ∧
    get_readme id ⟨200, ⟨some "base64", some "abc"⟩⟩ = .ok (some (id "abc")) ∧
    get_readme id ⟨200, ⟨some "utf-8", some "abc"⟩⟩ = .ok none ∧
    get_readme id ⟨500, ⟨none, none⟩⟩ = .error (RemoteError.httpStatus 500) :=
  ⟨(get_readme_behavior id _).1 rfl,
   (get_readme_behavior id _).2.1 (by decide) rfl "abc" rfl,
   (get_readme_behavior id _).2.2.1 (by decide) (Or.inl (by decide)),
   (get_readme_behavior id _).2.2.2 (by decide) (by decide)⟩

/-- C4: `list_user_repos` accumulates items page by page up to the first
empty page, and its result is exactly the concatenation of those pages (in
page order) filtered by the per-item fork/archived rule, each filter
independent of the other flag. -/
theorem list_user_repos_pagination_filter (include_forks include_archived : Bool)
    (pages : List (List Repo)) :
    list_user_repos include_forks include_archived pages =
      ((pages.takeWhile (fun b => !b.isEmpty)).flatten).filter
        (specKeep include_forks include_archived) := by
  induction pages with
  | nil => simp [list_user_repos]
  | cons batch rest ih =>
    have hkeep : (fun it => !(!include_forks && it.fork) && !(!include_archived && it.archived)) =
        specKeep include_forks include_archived := by
      funext it
      rcases it with ⟨nm, u, d, f, a⟩
      cases include_forks <;> cases include_archived <;> cases f <;> cases a <;> rfl
    by_cases hb : batch.isEmpty
    · rw [list_user_repos, if_pos hb, List.takeWhile_cons_of_neg (by simp [hb])]
      simp
    · rw [list_user_repos, if_neg hb, List.takeWhile_cons_of_pos (by simp [hb])]
      simp only [List.flatten_cons, List.filter_append]
      rw [ih, hkeep]

theorem mkRepositorySummary_six {raw : RawSummary} {ts : List String}
    (htech : raw.technologies = some ts) (hlen : 6 ≤ ts.length) :
    ∃ e, mkRepositorySummary raw = .error e := by
  have h5 : 5 < ts.length := by omega
  rcases raw with ⟨nm, ds, pu, te, cx, ta⟩
  simp only at htech
  subst htech
  rcases nm with _ | nm
  · exact ⟨.missingField, rfl⟩
  rcases ds with _ | ds
  · exact ⟨.missingField, rfl⟩
  rcases pu with _ | pu
  · exact ⟨.missingField, rfl⟩
  refine ⟨.tooManyTechnologies, ?_⟩
  simp only [mkRepositorySummary, validate_technologies]
  rw [if_pos h5]

/-- C5: when the parsed backend response carries a technology list of 6 or
more entries, pydantic validation rejects the record and
`summarize_structured` returns the safe-default record instead of raising. -/
theorem structured_six_technologies_rejected
    (jsonParse : String → Option RawSummary) (repo_name base_text description langs : String)
    (v : Option String) (jt : List Char) (raw : RawSummary) (ts : List String)
    (hspan : extractBraceSpan (pyStripS (v.getD "")).data = some jt)
    (hparse : jsonParse (String.mk jt) = some raw)
    (htech : raw.technologies = some ts)
    (hlen : 6 ≤ ts.length) :
    summarize_structured jsonParse repo_name base_text description langs (.ok v) =
      fallbackSummary repo_name description := by
  unfold summarize_structured
  simp only [hspan, hparse]
  obtain ⟨e, hmk⟩ := mkRepositorySummary_six htech hlen
  rw [hmk]

/-- C5 (witness): a backend response whose brace span parses to a record with
six technologies collapses to the safe default. -/
theorem structured_six_technologies_rejected_witness :
    extractBraceSpan (pyStripS ((some "\x7b\x7d" : Option String).getD "")).data =
      some [lbrace, rbrace] ∧
    (fun (_ : String) => some rawSix) (String.mk [lbrace, rbrace]) = some rawSix ∧
    rawSix.technologies = some ["a", "b", "c", "d", "e", "f"] ∧
    6 ≤ (["a", "b", "c", "d", "e", "f"] : List String).length ∧
    summarize_structured (fun _ => some rawSix) "repo" "" "desc" "" (.ok (some "\x7b\x7d")) =
      fallbackSummary "repo" "desc" :=
  ⟨by decide, rfl, rfl, by decide,
   structured_six_technologies_rejected (fun _ => some rawSix) "repo" "" "desc" ""
     (some "\x7b\x7d") [lbrace, rbrace] rawSix ["a", "b", "c", "d", "e", "f"]
     (by decide) rfl rfl (by decide)⟩

/-- C6: for a repository with description "A CLI tool" and no README, the
live orchestrator (`ghsum/cli/main.py`) crashes with `AttributeError`
(it passes the `None` readme text to `basic_summary`), while the sibling
implementation (`ghsum/cli.py`) produces the item the claim describes: no
readme excerpt and the summary equal to the cleaned description capped at 90
words. -/
theorem summarize_repo_no_readme_behavior :
    summarize_repo_main ⟨"cli-tool", some "https://example/x", some "A CLI tool", false, false⟩
        "excerpt" none = .error PyError.attributeError ∧
    summarize_repo_cli ⟨"cli-tool", some "https://example/x", some "A CLI tool", false, false⟩
        "excerpt" none =
      { name := "cli-tool", url := some "https://example/x", description := "A CLI tool",
        languages := none, readme := none, readme_excerpt := none,
        summary := some "A CLI tool" } ∧
    basic_summary "cli-tool" "A CLI tool" "A CLI tool" = "A CLI tool" ∧
    clean_markdown "A CLI tool" = "A CLI tool" := by
  refine ⟨rfl, ?_, ?_, ?_⟩ <;>
  simp [summarize_repo_cli, readmeTextOf, basic_summary, basicSummaryL, selectText,
    firstParaStripped, clean_markdown, cleanMarkdownL, splitlines, splitlinesAux, isBadgeLine,
    dropAfter, startsWith, containsSub, joinSp, joinNL, linkSub, scanLinkLabel, scanCloseParen,
    fenceSub, inlineCodeSub, headingSubM, trySpanHeading, pySplit, pySplitAux, pyStrip,
    pyIsSpace, isBlank, btick]

/-- C7: the end-to-end excerpt scenario — the badge line is dropped, the
heading marker is stripped, and the heading line merges into the following
paragraph because no blank line separates them. -/
theorem excerpt_scenario_badge_heading :
    excerpt "![badge](x.png)\n\n# Title\nFirst paragraph text here." 500 =
      "Title First paragraph text here." := by
  simp [excerpt, excerptL, excerptTail, firstParaRaw, splitlines, splitlinesAux, isBadgeLine,
    dropAfter, startsWith, containsSub, joinSp, joinNL, linkSub, scanLinkLabel, scanCloseParen,
    excerptCodeSub, backtickRun, scanTick, headingSubAnywhere, pySplit, pySplitAux, pyStrip,
    pyIsSpace, isBlank, btick]

/-- C8 (counterexample): on an input whose only line is a badge, no paragraph
remains after badge removal, and `_excerpt` falls back to the ORIGINAL input
text (badge included, which the link pass rewrites to "!badge") — not to the
badge-filtered remaining text, which would give the empty string. -/
theorem excerpt_fallback_counterexample :
    excerpt "![badge](x.png)" 500 = "!badge" ∧
    excerptSpecRemaining "![badge](x.png)" 500 = "" ∧
    excerpt "![badge](x.png)" 500 ≠ excerptSpecRemaining "![badge](x.png)" 500 := by
  have h1 : excerpt "![badge](x.png)" 500 = "!badge" := by
    simp [excerpt, excerptL, excerptTail, firstParaRaw, splitlines, splitlinesAux, isBadgeLine,
      dropAfter, startsWith, containsSub, joinSp, joinNL, linkSub, scanLinkLabel, scanCloseParen,
      excerptCodeSub, backtickRun, scanTick, headingSubAnywhere, pySplit, pySplitAux, pyStrip,
      pyIsSpace, isBlank, btick]
  have h2 : excerptSpecRemaining "![badge](x.png)" 500 = "" := by
    simp [excerptSpecRemaining, excerptTail, firstParaRaw, splitlines, splitlinesAux, isBadgeLine,
      dropAfter, startsWith, containsSub, joinSp, joinNL, linkSub, scanLinkLabel, scanCloseParen,
      excerptCodeSub, backtickRun, scanTick, headingSubAnywhere, pySplit, pySplitAux, pyStrip,
      pyIsSpace, isBlank, btick]
  refine ⟨h1, h2, ?_⟩
  rw [h1, h2]
  decide

/-- C8 (amended): in excerpt mode, when no non-blank line remains after
dropping badge lines, the normalizer falls back to the entire ORIGINAL input
text (before badge-line removal) as the basis for the excerpt. -/
theorem excerpt_fallback_amended (text : String) (limit : Nat)
    (h : firstParaRaw ((splitlines text.data).filter (fun ln => !(isBadgeLine ln))) = []) :
    excerpt text limit = String.mk (excerptTail text.data limit) := by
  unfold excerpt excerptL
  simp [h]

/-- C8 (witness): the amended fallback rule at the badge-only input. -/
theorem excerpt_fallback_amended_witness :
    firstParaRaw ((splitlines ("![badge](x.png)" : String).data).filter
        (fun ln => !(isBadgeLine ln))) = [] ∧
    excerpt "![badge](x.png)" 500 = String.mk (excerptTail ("![badge](x.png)" : String).data 500) :=
  ⟨by decide, excerpt_fallback_amended "![badge](x.png)" 500 (by decide)⟩

/-- C9 (counterexample): one input defeats all three parts of the claimed
invariant — a nested link leaves link syntax, a fence pair spliced across two
badge-free lines assembles image syntax, and an unpaired fence delimiter
survives verbatim. -/
theorem clean_markdown_noise_counterexample :
    clean_markdown "[[x](y)](z)\n![a```\n```](b)\n```" = "[x](z)\n![a](b)\n```" ∧
    (splitlines ("[x](z)\n![a](b)\n```" : String).data).any (fun ln => linkNoise ln) = true ∧
    (splitlines ("[x](z)\n![a](b)\n```" : String).data).any (fun ln => isBadgeLine ln) = true ∧
    containsSub [btick, btick, btick] ("[x](z)\n![a](b)\n```" : String).data = true := by
  refine ⟨?_, by decide, by decide, by decide⟩
  simp [clean_markdown, cleanMarkdownL, splitlines, splitlinesAux, isBadgeLine, linkNoise,
    dropAfter, startsWith, containsSub, joinSp, joinNL, linkSub, scanLinkLabel, scanCloseParen,
    fenceSub, inlineCodeSub, headingSubM, trySpanHeading, pyStrip, pyIsSpace, isBlank, btick]

/-- C9 (amended): for every input free of opening brackets and backticks, the
full-mode normalized text contains no unresolved markdown link syntax, no
image/badge syntax and no code-fence delimiter; in general, nested links,
line-splicing fence pairs and unpaired fence delimiters can each leave such
syntax behind. -/
theorem clean_markdown_noise_free_amended (s : String)
    (h1 : s.data.all (fun c => !(c = '[')) = true)
    (h2 : s.data.all (fun c => !(c = btick)) = true) :
    ((splitlines (clean_markdown s).data).all
        (fun ln => !(linkNoise ln) && !(isBadgeLine ln))) = true ∧
    containsSub [btick, btick, btick] (clean_markdown s).data = false := by
  have hpair := cleanMarkdownL_all_pair h1 h2
  have hdata : (clean_markdown s).data = cleanMarkdownL s.data := rfl
  constructor
  · rw [hdata, List.all_eq_true]
    intro ln hln
    have hlnall : ln.all (fun c => !(c = '[')) :=
      splitlinesAux_all _ [] (by simp) hpair.1 ln hln
    simp [linkNoise_false hlnall, isBadgeLine_false hlnall]
  · unfold containsSub
    rw [hdata, dropAfter_fence_none hpair.2]
    rfl

/-- C9 (witness): the amended invariant at a bracket-free, backtick-free
input. -/
theorem clean_markdown_noise_free_witness :
    ("hello world" : String).data.all (fun c => !(c = '[')) = true ∧
    ("hello world" : String).data.all (fun c => !(c = btick)) = true ∧
    (((splitlines (clean_markdown "hello world").data).all
        (fun ln => !(linkNoise ln) && !(isBadgeLine ln))) = true ∧
      containsSub [btick, btick, btick] (clean_markdown "hello world").data = false) :=
  ⟨by decide, by decide,
   clean_markdown_noise_free_amended "hello world" (by decide) (by decide)⟩

/-- C10: for every input text and every configured word limit, the word count
of the excerpt-mode normalized text is at most the limit. -/
theorem excerpt_word_count_le (text : String) (word_limit : Nat) :
    wordCount (excerpt text word_limit) ≤ word_limit := by
  unfold wordCount excerpt excerptL
  exact excerptTail_word_cap _ _

end GhSum
